import Mathlib

/-! Verification development for the tasker repository: the task-tree engine
    (recursive retrieval, nested reassembly, sibling positions, cascading
    delete), the blocker graph, the bulk-import multi-pass insert, the
    update patch semantics, the AI credential resolution, the model filter
    and the breakdown response parser, shallowly embedded from the
    JavaScript routes and the SQL schema. -/

namespace Tasker

/-- Opaque row identity; UUID values are modelled as naturals. -/
abbrev Uid := Nat

/-- A row of the `tasks` table (src/db/002-tasks.sql). -/
structure Task where
  id : Uid
  project_id : Option Uid
  parent_id : Option Uid
  label : String
  position : Int
  is_expanded : Bool
  created_at : Nat
  updated_at : Nat
  deriving DecidableEq

/-- A row of the `task_blockers` table (src/db/003-task-blockers.sql). -/
structure Blocker where
  id : Uid
  task_id : Uid
  blocker_id : Uid
  note : Option String
  created_at : Nat
  deriving DecidableEq

/-- The mutable relational state the task routes touch. -/
structure Store where
  tasks : List Task
  blockers : List Blocker
  deriving DecidableEq

/-- Error taxonomy of the route layer: 400 InvalidArgument, 409 Conflict,
    404 NotFound, 502 BadUpstreamResponse, 500 InternalError. -/
inductive Err where
  | invalidArgument
  | conflict
  | notFound
  | badUpstream
  | internal
  deriving DecidableEq

/-! ## Create task (POST /api/tasks, src/routes/tasks.js lines 42-62) -/

/-- SQL `COALESCE(MAX(position), -1)` over a column: the maximum of the
    listed values, `-1` when the list is empty. -/
def maxPos : List Int → Int
  | [] => -1
  | x :: xs => xs.foldl max x

/-- SQL equality `column = $1` on nullable values: true only when both the
    stored value and the parameter are non-null and equal; a comparison
    against NULL is never true. -/
def sqlEq (a b : Option Uid) : Prop :=
  match a, b with
  | some x, some y => x = y
  | _, _ => False

instance : ∀ (a b : Option Uid), Decidable (sqlEq a b)
  | some x, some y => inferInstanceAs (Decidable (x = y))
  | some _, none => isFalse (fun h => h)
  | none, some _ => isFalse (fun h => h)
  | none, none => isFalse (fun h => h)

/-- The sibling query of POST /api/tasks: with a (truthy) parent the
    maximum position among rows of that parent, otherwise among root rows
    whose stored project SQL-equals the given parameter (so a NULL project
    parameter matches no row); `+ 1` either way. -/
def nextPos (db : List Task) (project_id parent_id : Option Uid) : Int :=
  match parent_id with
  | some p => maxPos ((db.filter (fun t => t.parent_id = some p)).map (fun t => t.position)) + 1
  | none =>
    maxPos ((db.filter (fun t => sqlEq t.project_id project_id ∧ t.parent_id = none)).map
      (fun t => t.position)) + 1

/-- POST /api/tasks: reject a falsy label, compute the sibling position,
    insert the row. `newId` stands for the generated UUID, `now` for NOW(). -/
def createTask (db : List Task) (label : String) (project_id parent_id : Option Uid)
    (newId : Uid) (now : Nat) : Except Err (List Task × Task) :=
  if label = ("") then .error .invalidArgument
  else
    let t : Task :=
      { id := newId, project_id := project_id, parent_id := parent_id, label := label
        position := nextPos db project_id parent_id
        is_expanded := false, created_at := now, updated_at := now }
    .ok (db ++ [t], t)

/-- N sequential POST /api/tasks calls creating children of parent `p`
    (fresh ids from `idBase`), as in the contiguous-positions property. -/
def createN (db : List Task) (p : Uid) (idBase : Nat) (now : Nat) : Nat → List Task
  | 0 => db
  | n + 1 =>
    let db' :=
      match createTask db ("subtask") none (some p) idBase now with
      | .ok r => r.1
      | .error _ => db
    createN db' p (idBase + 1) now n

/-! ## Task tree fold (GET /api/projects/:projectId/tasks, lines 20-34) -/

/-- One row of the recursive query result: a task together with its depth. -/
structure TreeRow where
  task : Task
  depth : Nat
  deriving DecidableEq

/-- The ids occurring in the flat result set (the keys of `taskMap`). -/
def rowIds (rows : List TreeRow) : List Uid := rows.map (fun r => r.task.id)

/-- First loop: every row becomes a map entry with an empty children list. -/
def initMap (rows : List TreeRow) : List (Uid × List Uid) :=
  rows.map (fun r => (r.task.id, ([] : List Uid)))

/-- `taskMap[p].children.push(c)`: append `c` to the children of key `p`. -/
def pushChild (m : List (Uid × List Uid)) (p c : Uid) : List (Uid × List Uid) :=
  m.map (fun e => if e.1 = p then (e.1, e.2 ++ [c]) else e)

/-- `taskMap[p]`: property access on the id-keyed object. -/
def mapLookup (p : Uid) : List (Uid × List Uid) → Option (List Uid)
  | [] => none
  | e :: rest => if e.1 = p then some e.2 else mapLookup p rest

/-- Second loop body: a row with a truthy parent present in the map is
    appended to that parent's children; a row with a null parent is appended
    to the top-level roots; anything else is dropped. -/
def buildStep (allIds : List Uid) (st : List (Uid × List Uid) × List Uid) (r : TreeRow) :
    List (Uid × List Uid) × List Uid :=
  match r.task.parent_id with
  | some p => if p ∈ allIds then (pushChild st.1 p r.task.id, st.2) else st
  | none => (st.1, st.2 ++ [r.task.id])

/-- The whole fold of GET /api/projects/:projectId/tasks: children map and
    ordered top-level roots. -/
def buildTree (rows : List TreeRow) : List (Uid × List Uid) × List Uid :=
  rows.foldl (buildStep (rowIds rows)) (initMap rows, [])

/-- ORDER BY depth, position, created_at of the recursive query. -/
def rowKeyLe (a b : TreeRow) : Prop :=
  a.depth < b.depth ∨
    (a.depth = b.depth ∧
      (a.task.position < b.task.position ∨
        (a.task.position = b.task.position ∧ a.task.created_at ≤ b.task.created_at)))

/-- Sibling display order: by position, tie-broken by creation time. -/
def sibLe (a b : TreeRow) : Prop :=
  a.task.position < b.task.position ∨
    (a.task.position = b.task.position ∧ a.task.created_at ≤ b.task.created_at)

instance (a b : TreeRow) : Decidable (rowKeyLe a b) := by
  unfold rowKeyLe; infer_instance

instance (a b : TreeRow) : Decidable (sibLe a b) := by
  unfold sibLe; infer_instance

/-! ## Recursive CTE (GET /api/projects/:projectId/tasks, lines 9-18) -/

/-- Level `n` of the recursive CTE `task_tree`: level 0 selects the roots of
    project `P`; level `n+1` joins `tasks` against level `n` on
    `t.parent_id = tt.id`. -/
def ctLevel (db : List Task) (P : Uid) : Nat → List Task
  | 0 => db.filter (fun t => t.project_id = some P ∧ t.parent_id = none)
  | n + 1 => db.filter (fun t => (ctLevel db P n).any (fun u => t.parent_id = some u.id))

/-- Membership in the full recursive result set. -/
def InTaskTree (db : List Task) (P : Uid) (t : Task) : Prop :=
  ∃ n, t ∈ ctLevel db P n

/-- The materialised flat result set; `db.length` levels exhaust every
    possible depth of an acyclic parent forest over `db`. -/
def taskTreeRows (db : List Task) (P : Uid) : List Task :=
  (List.range (db.length + 1)).flatMap (ctLevel db P)

/-- Declarative reachability: transitively rooted at a root task of `P`. -/
inductive Rooted (db : List Task) (P : Uid) : Task → Prop
  | root (t : Task) (ht : t ∈ db) (hp : t.project_id = some P)
      (hr : t.parent_id = none) : Rooted db P t
  | child (t u : Task) (ht : t ∈ db) (hu : Rooted db P u)
      (hp : t.parent_id = some u.id) : Rooted db P t

/-! ## Cascading delete (DELETE /api/tasks/:id, lines 87-97, and the
    ON DELETE CASCADE rules of 002-tasks.sql / 003-task-blockers.sql) -/

/-- Whether a task's parent is already among the deleted ids. -/
def parentDead (dead : List Uid) (t : Task) : Bool :=
  match t.parent_id with
  | none => false
  | some p => decide (p ∈ dead)

/-- Ids newly reached by one referential-action step: tasks not yet deleted
    whose parent row has just been deleted. -/
def newlyDead (tasks : List Task) (dead : List Uid) : List Uid :=
  (tasks.filter (fun t => !decide (t.id ∈ dead) && parentDead dead t)).map (fun t => t.id)

/-- Iterating the cascade step. -/
def deadIter (tasks : List Task) : Nat → List Uid → List Uid
  | 0, dead => dead
  | n + 1, dead => deadIter tasks n (dead ++ newlyDead tasks dead)

/-- The set of ids removed by `DELETE FROM tasks WHERE id = i`: iterate the
    cascade until it stabilises (the number of distinct task ids bounds the
    number of productive steps). -/
def deadClosure (tasks : List Task) (i : Uid) : List Uid :=
  deadIter tasks ((tasks.map (fun t => t.id)).dedup.length) [i]

/-- DELETE /api/tasks/:id: 404 when no row matches, otherwise remove the
    matched row, cascade through `tasks.parent_id`, and cascade every
    `task_blockers` row referencing a removed task on either side. -/
def deleteTask (st : Store) (i : Uid) : Except Err Store :=
  if st.tasks.any (fun t => t.id = i) then
    let dead := deadClosure st.tasks i
    .ok { tasks := st.tasks.filter (fun t => !decide (t.id ∈ dead))
          blockers := st.blockers.filter
            (fun b => !decide (b.task_id ∈ dead) && !decide (b.blocker_id ∈ dead)) }
  else .error .notFound

/-- Declarative subtree membership: `j` is `i` itself or the id of a task
    whose parent chain reaches `i`. -/
inductive InSubtree (tasks : List Task) (i : Uid) : Uid → Prop
  | base : InSubtree tasks i i
  | step (t : Task) (ht : t ∈ tasks) (p : Uid) (hp : t.parent_id = some p)
      (hin : InSubtree tasks i p) : InSubtree tasks i t.id

/-! ## Blockers (src/routes/blockers.js) -/

/-- POST /api/tasks/:taskId/blockers: 400 on a falsy blocker_id, then the
    insert hits the constraints of 003-task-blockers.sql in order: the
    CHECK(task_id != blocker_id) row constraint (code 23514, mapped to 400),
    the UNIQUE(task_id, blocker_id) index (code 23505, mapped to 409), and
    the two foreign keys (code 23503, which falls to the generic 500
    handler). -/
def addBlocker (st : Store) (taskId : Uid) (blocker_id : Option Uid) (note : Option String)
    (newId : Uid) (now : Nat) : Except Err (Store × Blocker) :=
  match blocker_id with
  | none => .error .invalidArgument
  | some b =>
    if taskId = b then .error .invalidArgument
    else if st.blockers.any (fun r => r.task_id = taskId ∧ r.blocker_id = b) then
      .error .conflict
    else if ¬ (st.tasks.any (fun t => t.id = taskId)) ∨ ¬ (st.tasks.any (fun t => t.id = b)) then
      .error .internal
    else
      let r : Blocker :=
        { id := newId, task_id := taskId, blocker_id := b, note := note, created_at := now }
      .ok ({ st with blockers := st.blockers ++ [r] }, r)

/-- DELETE /api/tasks/:taskId/blockers/:blockerId: delete by pair; 404 when
    the statement removed no row. -/
def removeBlocker (st : Store) (taskId blockerId : Uid) : Except Err Store :=
  if st.blockers.any (fun r => r.task_id = taskId ∧ r.blocker_id = blockerId) then
    .ok { st with blockers :=
      st.blockers.filter (fun r => !decide (r.task_id = taskId ∧ r.blocker_id = blockerId)) }
  else .error .notFound

/-! ## Update task (PUT /api/tasks/:id, lines 65-84) -/

/-- A request-body field: absent, explicit null, or a value. -/
inductive Patch (α : Type) where
  | absent
  | null
  | val (a : α)
  deriving DecidableEq

/-- How the field reaches the SQL statement: both absent and explicit null
    become the SQL NULL parameter. -/
def Patch.toParam : Patch α → Option α
  | .absent => none
  | .null => none
  | .val a => some a

/-- The UPDATE statement: COALESCE each supplied parameter with the stored
    column, always refresh updated_at, 404 when no row matched. -/
def updateTask (db : List Task) (i : Uid) (label : Option String) (position : Option Int)
    (is_expanded : Option Bool) (now : Nat) : Except Err (List Task) :=
  if db.any (fun t => t.id = i) then
    .ok (db.map (fun t =>
      if t.id = i then
        { t with label := label.getD t.label, position := position.getD t.position
                 is_expanded := is_expanded.getD t.is_expanded, updated_at := now }
      else t))
  else .error .notFound

/-- PUT /api/tasks/:id as seen from the request body. -/
def updateTaskReq (db : List Task) (i : Uid) (label : Patch String) (position : Patch Int)
    (is_expanded : Patch Bool) (now : Nat) : Except Err (List Task) :=
  updateTask db i label.toParam position.toParam is_expanded.toParam now

/-! ## AI credential resolution (src/routes/ai.js: breakdown endpoint,
    getEnvKey, callOpenAI headers) -/

/-- The closed set of provider variants in `PROVIDERS`. -/
inductive Provider where
  | gemini
  | openai
  | anthropic
  deriving DecidableEq

/-- `getEnvKey`: the process-environment credential keyed by provider
    identity; a missing or empty variable is `none`. -/
def getEnvKey (env : Provider → Option String) (p : Provider) : Option String :=
  env p

/-- `api_key || getEnvKey(provider)`: an explicit (truthy) request
    credential wins, otherwise the environment fallback. -/
def resolveApiKey (api_key : Option String) (env : Provider → Option String)
    (p : Provider) : Option String :=
  match api_key with
  | some k => some k
  | none => getEnvKey env p

/-- The breakdown guard: `if (!apiKey && provider !== 'openai')` return 400,
    otherwise proceed with the (possibly absent) resolved key. -/
def breakdownKeyCheck (api_key : Option String) (env : Provider → Option String)
    (p : Provider) : Except Err (Option String) :=
  match resolveApiKey api_key env p with
  | none => if p ≠ Provider.openai then .error .invalidArgument else .ok none
  | some k => .ok (some k)

/-- `callOpenAI` request headers: Content-Type always, Authorization only
    when a key is present. -/
def openAIHeaders (apiKey : Option String) : List (String × String) :=
  [(("Content-Type"), ("application/json"))] ++
    match apiKey with
    | some k => [(("Authorization"), ("Bearer ") ++ k)]
    | none => []

/-! ## Model filter, openai branch (src/routes/ai.js, isRelevantModel) -/

/-- `a.startsWith(p)` on character lists. -/
def headMatches : List Char → List Char → Bool
  | [], _ => true
  | _ :: _, [] => false
  | p :: ps, c :: cs => p = c && headMatches ps cs

/-- `s.includes(sub)` on character lists. -/
def containsSub (sub : List Char) : List Char → Bool
  | [] => headMatches sub []
  | c :: cs => headMatches sub (c :: cs) || containsSub sub cs

/-- A JavaScript `\d` digit. -/
def isDigitCh (c : Char) : Bool := ('0' ≤ c && c ≤ '9')

/-- The regex `\d\x7b4\x7d-\d\x7b2\x7d-\d\x7b2\x7d` anchored at the head of
    the list: four digits, a dash, two digits, a dash, two digits. -/
def dateAt : List Char → Bool
  | a :: b :: c :: d :: h1 :: e :: f :: h2 :: g :: i :: _ =>
    isDigitCh a && isDigitCh b && isDigitCh c && isDigitCh d && h1 = '-' &&
      isDigitCh e && isDigitCh f && h2 = '-' && isDigitCh g && isDigitCh i
  | _ => false

/-- `.test` of that regex: some position of the identifier starts a
    YYYY-MM-DD shaped span. -/
def hasDate : List Char → Bool
  | [] => false
  | c :: cs => dateAt (c :: cs) || hasDate cs

/-- The `allowed` prefix list of the openai branch. -/
def openaiAllowed : List (List Char) := [("gpt-5").toList, ("gpt-4.1").toList]

/-- The `blocked` substring list of the openai branch. -/
def openaiBlocked : List (List Char) :=
  [("audio").toList, ("realtime").toList, ("tts").toList, ("image").toList,
    ("transcribe").toList, ("moderation").toList, ("o3").toList, ("o4").toList,
    ("o1").toList, ("4o").toList]

/-- The `provider === 'openai'` branch of `isRelevantModel`: require an
    allowed prefix, then reject blocked substrings, then reject embedded
    dates. -/
def isRelevantModelOpenai (modelId : List Char) : Bool :=
  if !(openaiAllowed.any (fun p => headMatches p modelId)) then false
  else if openaiBlocked.any (fun b => containsSub b modelId) then false
  else if hasDate modelId then false
  else true

/-! ## Breakdown response parsing (src/routes/ai.js, POST /breakdown):
    `text.match(...)` taking the first opening bracket through the last
    closing bracket, then `JSON.parse` on the matched span. -/

/-- JSON whitespace accepted by `JSON.parse`: space, tab, newline, carriage
    return. -/
def isJsonWs (c : Char) : Bool :=
  c = ' ' || c = '\t' || c = '\n' || c = Char.ofNat 13

/-- Drop leading JSON whitespace. -/
def skipWs : List Char → List Char
  | [] => []
  | c :: cs => if isJsonWs c then skipWs cs else c :: cs

/-- A parsed JSON value; string data is stored decoded, number tokens are
    kept as their lexeme. -/
inductive Json where
  | null
  | bool (b : Bool)
  | num (lexeme : List Char)
  | str (chars : List Char)
  | arr (elems : List Json)
  | obj (members : List (List Char × Json))

/-- Value of one hexadecimal digit. -/
def hexVal (c : Char) : Option Nat :=
  if ('0' ≤ c ∧ c ≤ '9') then some (c.toNat - ('0').toNat)
  else if ('a' ≤ c ∧ c ≤ 'f') then some (c.toNat - ('a').toNat + 10)
  else if ('A' ≤ c ∧ c ≤ 'F') then some (c.toNat - ('A').toNat + 10)
  else none

/-- The single-character JSON string escapes. -/
def escChar (c : Char) : Option Char :=
  if c = '"' then some '"'
  else if c = '\\' then some '\\'
  else if c = '/' then some '/'
  else if c = 'b' then some (Char.ofNat 8)
  else if c = 'f' then some (Char.ofNat 12)
  else if c = 'n' then some '\n'
  else if c = 'r' then some (Char.ofNat 13)
  else if c = 't' then some '\t'
  else none

/-- Parse the body of a JSON string after its opening quote: decoded
    characters plus the rest of the input, `none` on a malformed string. -/
def parseStringBody : List Char → Option (List Char × List Char)
  | [] => none
  | '\\' :: 'u' :: a :: b :: c :: d :: rest =>
    match hexVal a, hexVal b, hexVal c, hexVal d with
    | some x1, some x2, some x3, some x4 =>
      (parseStringBody rest).map
        (fun p => (Char.ofNat (((x1 * 16 + x2) * 16 + x3) * 16 + x4) :: p.1, p.2))
    | _, _, _, _ => none
  | '\\' :: e :: rest =>
    match escChar e with
    | some ch => (parseStringBody rest).map (fun p => (ch :: p.1, p.2))
    | none => none
  | c :: rest =>
    if c = '"' then some ([], rest)
    else if c.toNat < 32 then none
    else (parseStringBody rest).map (fun p => (c :: p.1, p.2))

/-- Longest run of digits at the head of the input. -/
def spanDigits : List Char → List Char × List Char
  | [] => ([], [])
  | c :: rest =>
    if isDigitCh c then
      let r := spanDigits rest
      (c :: r.1, r.2)
    else ([], c :: rest)

/-- Exponent tail of a JSON number after the `e`/`E` marker. -/
def parseExpTail (lex : List Char) (e : Char) (s : List Char) :
    Option (List Char × List Char) :=
  let sgn : List Char × List Char :=
    match s with
    | '+' :: r => (['+'], r)
    | '-' :: r => (['-'], r)
    | _ => ([], s)
  let d := spanDigits sgn.2
  if d.1 = [] then none else some (lex ++ e :: sgn.1 ++ d.1, d.2)

/-- Optional fraction and exponent of a JSON number. -/
def parseFracExp (lex : List Char) (s : List Char) : Option (List Char × List Char) :=
  let fr : Option (List Char × List Char) :=
    match s with
    | '.' :: r =>
      let d := spanDigits r
      if d.1 = [] then none else some (lex ++ '.' :: d.1, d.2)
    | _ => some (lex, s)
  match fr with
  | none => none
  | some (lex2, s2) =>
    match s2 with
    | 'e' :: r => parseExpTail lex2 'e' r
    | 'E' :: r => parseExpTail lex2 'E' r
    | _ => some (lex2, s2)

/-- A JSON number token: optional minus, `0` or a nonzero-led digit run,
    optional fraction, optional exponent. -/
def parseNumber (s : List Char) : Option (List Char × List Char) :=
  let neg : List Char × List Char :=
    match s with
    | '-' :: r => (['-'], r)
    | _ => ([], s)
  match neg.2 with
  | [] => none
  | c :: r =>
    if c = '0' then parseFracExp (neg.1 ++ [c]) r
    else if isDigitCh c then
      let d := spanDigits r
      parseFracExp (neg.1 ++ c :: d.1) d.2
    else none

mutual

/-- Fueled recursive-descent JSON value parser; the fuel only bounds
    nesting and element recursion, each unit of which consumes input. -/
def parseValue : Nat → List Char → Option (Json × List Char)
  | 0, _ => none
  | fuel + 1, s =>
    match skipWs s with
    | 'n' :: 'u' :: 'l' :: 'l' :: rest => some (.null, rest)
    | 't' :: 'r' :: 'u' :: 'e' :: rest => some (.bool true, rest)
    | 'f' :: 'a' :: 'l' :: 's' :: 'e' :: rest => some (.bool false, rest)
    | '"' :: rest => (parseStringBody rest).map (fun p => (.str p.1, p.2))
    | '[' :: rest =>
      (match skipWs rest with
      | ']' :: r2 => some (.arr [], r2)
      | r1 =>
        match parseValue fuel r1 with
        | some (v, r2) => parseArrayRest fuel r2 [v]
        | none => none)
    | '\x7b' :: rest =>
      (match skipWs rest with
      | '\x7d' :: r2 => some (.obj [], r2)
      | r1 =>
        match parseMember fuel r1 with
        | some (k, v, r2) => parseObjRest fuel r2 [(k, v)]
        | none => none)
    | s1 => (parseNumber s1).map (fun p => (.num p.1, p.2))

/-- Remaining elements of a JSON array after at least one element. -/
def parseArrayRest : Nat → List Char → List Json → Option (Json × List Char)
  | 0, _, _ => none
  | fuel + 1, s, acc =>
    match skipWs s with
    | ',' :: r =>
      (match parseValue fuel r with
      | some (v, r2) => parseArrayRest fuel r2 (acc ++ [v])
      | none => none)
    | ']' :: r => some (.arr acc, r)
    | _ => none

/-- One `"key": value` member of a JSON object. -/
def parseMember : Nat → List Char → Option (List Char × Json × List Char)
  | 0, _ => none
  | fuel + 1, s =>
    match skipWs s with
    | '"' :: rest =>
      (match parseStringBody rest with
      | some (k, r1) =>
        (match skipWs r1 with
        | ':' :: r2 =>
          (match parseValue fuel r2 with
          | some (v, r3) => some (k, v, r3)
          | none => none)
        | _ => none)
      | none => none)
    | _ => none

/-- Remaining members of a JSON object after at least one member. -/
def parseObjRest : Nat → List Char → List (List Char × Json) → Option (Json × List Char)
  | 0, _, _ => none
  | fuel + 1, s, acc =>
    match skipWs s with
    | ',' :: r =>
      (match parseMember fuel r with
      | some (k, v, r2) => parseObjRest fuel r2 (acc ++ [(k, v)])
      | none => none)
    | '\x7d' :: r => some (.obj acc, r)
    | _ => none

end

/-- `JSON.parse`: one JSON value covering the whole text up to trailing
    whitespace. -/
def parseJson (s : List Char) : Option Json :=
  match parseValue (2 * s.length + 4) s with
  | some (v, rest) => if skipWs rest = [] then some v else none
  | none => none

/-- Prefix of the input up to and including the last closing bracket it
    contains, `none` when it has no closing bracket. -/
def takeToLastRBrack : List Char → Option (List Char)
  | [] => none
  | c :: rest =>
    match takeToLastRBrack rest with
    | some tl => some (c :: tl)
    | none => if c = ']' then some [(']')] else none

/-- The greedy regex of the breakdown endpoint: it matches from the first
    opening bracket that has a closing bracket somewhere after it through
    the last closing bracket of the text. -/
def extractArraySpan : List Char → Option (List Char)
  | [] => none
  | c :: rest =>
    if c = '[' then
      match takeToLastRBrack rest with
      | some tl => some ('[' :: tl)
      | none => none
    else extractArraySpan rest

/-- The response handling of POST /breakdown: no bracketed span means the
    502 BadUpstreamResponse path; a span that `JSON.parse` rejects throws
    and is caught by the generic 500 handler. -/
def parseBreakdown (text : String) : Except Err Json :=
  match extractArraySpan text.toList with
  | none => .error .badUpstream
  | some span =>
    match parseJson span with
    | some v => .ok v
    | none => .error .internal

/-! ## Bulk import multi-pass insert (src/routes/export.js, POST /api/import,
    lines 70-94 and the rollback handler at lines 114-118) -/

/-- `!t.parent_id || inserted.has(t.parent_id)`: the row can be inserted in
    the current pass. -/
def insertReady (inserted : List Uid) (t : Task) : Bool :=
  match t.parent_id with
  | none => true
  | some p => decide (p ∈ inserted)

/-- One pass over the remaining rows: insert every row whose parent is
    already inserted or null (the inserted set grows within the pass),
    collect the rest in order for the next pass. -/
def importPass (inserted : List Uid) (db : List Task) :
    List Task → List Uid × List Task × List Task
  | [] => (inserted, db, [])
  | t :: rest =>
    if insertReady inserted t then importPass (inserted ++ [t.id]) (db ++ [t]) rest
    else
      let r := importPass inserted db rest
      (r.1, r.2.1, t :: r.2.2)

/-- The error thrown when rows remain after the pass ceiling. -/
def importErrMsg : String := "tasks could not be inserted (missing parent references)"

/-- The `while (remaining.length > 0 && maxPasses-- > 0)` loop followed by
    the leftover check. -/
def importLoop : Nat → List Uid → List Task → List Task → Except String (List Uid × List Task)
  | _, inserted, db, [] => .ok (inserted, db)
  | 0, _, _, _ :: _ => .error importErrMsg
  | fuel + 1, inserted, db, t :: rest =>
    let r := importPass inserted db (t :: rest)
    importLoop fuel r.1 r.2.1 r.2.2

/-- The task stage of POST /api/import with its `maxPasses = 20` ceiling. -/
def importTasks (rows : List Task) : Except String (List Task) :=
  (importLoop 20 [] [] rows).map (fun r => r.2)

/-- The import transaction as the caller sees it: on success the store is
    replaced by the imported rows, on any failure the transaction is rolled
    back and the prior store is intact while the client receives the 500
    message. Project-row insertion is elided (projects do not affect the
    task passes); imported blocker rows are taken as given. -/
def importEndpoint (st : Store) (taskRows : List Task) (blockerRows : List Blocker) :
    Store × Option String :=
  match importTasks taskRows with
  | .ok tasks => ({ tasks := tasks, blockers := blockerRows }, none)
  | .error _ => (st, some ("Import failed"))

/-! ## Concrete fixtures used by the witness theorems -/

/-- A concrete task row. -/
def sampleTask (i : Uid) (proj parent : Option Uid) (pos : Int) (ts : Nat) : Task :=
  { id := i, project_id := proj, parent_id := parent, label := ("t"), position := pos,
    is_expanded := false, created_at := ts, updated_at := ts }

/-- A concrete store: two root tasks of project 7, no blockers. -/
def sampleStore : Store :=
  { tasks := [sampleTask 1 (some 7) none 0 0, sampleTask 2 (some 7) none 1 1],
    blockers := [] }

/-- An environment with no provider credentials configured. -/
def envNone : Provider → Option String := fun _ => none

/-- A concrete flat result set: two depth-0 roots and one depth-1 child,
    ordered by depth, position, creation time. -/
def sampleRows : List TreeRow :=
  [{ task := sampleTask 1 (some 7) none 0 0, depth := 0 },
   { task := sampleTask 2 (some 7) none 1 1, depth := 0 },
   { task := sampleTask 3 none (some 1) 0 2, depth := 1 }]

/-- A concrete tasks table: roots of two projects and a child of the first
    root (non-root rows carry no direct project reference). -/
def sampleTreeDb : List Task :=
  [sampleTask 1 (some 7) none 0 0, sampleTask 2 (some 8) none 0 1,
   sampleTask 3 none (some 1) 0 2]

/-- A concrete store with a two-level chain under task 1 plus an unrelated
    root, and one blocker row pointing at the chain. -/
def sampleCascadeStore : Store :=
  { tasks := [sampleTask 1 (some 7) none 0 0, sampleTask 2 none (some 1) 0 1,
              sampleTask 3 none (some 2) 0 2, sampleTask 4 (some 7) none 1 3],
    blockers := [{ id := 10, task_id := 4, blocker_id := 2, note := none, created_at := 5 }] }

/-- Two import rows whose parent references form a cycle. -/
def sampleCycleRows : List Task :=
  [sampleTask 21 none (some 22) 0 0, sampleTask 22 none (some 21) 0 1]

/-! ## Helper lemmas for folded maxima -/

theorem foldl_max_le_self (xs : List Int) : ∀ x : Int, x ≤ xs.foldl max x := by
  induction xs with
  | nil => simp
  | cons a l ih => intro x; exact le_trans (le_max_left x a) (ih (max x a))

theorem mem_le_foldl_max (xs : List Int) : ∀ x z, z ∈ xs → z ≤ xs.foldl max x := by
  induction xs with
  | nil => simp
  | cons a l ih =>
    intro x z hz
    rcases List.mem_cons.mp hz with h | h
    · subst h; exact le_trans (le_max_right x z) (foldl_max_le_self l (max x z))
    · exact ih (max x a) z h

theorem foldl_max_mem (xs : List Int) : ∀ x, xs.foldl max x = x ∨ xs.foldl max x ∈ xs := by
  induction xs with
  | nil => intro x; left; rfl
  | cons a l ih =>
    intro x
    rcases ih (max x a) with h | h
    · rcases max_cases x a with ⟨he, _⟩ | ⟨he, _⟩
      · left; rw [List.foldl_cons, h, he]
      · right; rw [List.foldl_cons, h, he]; exact List.mem_cons_self a l
    · right; exact List.mem_cons_of_mem a h

theorem maxPos_mem (l : List Int) (h : l ≠ []) : maxPos l ∈ l := by
  cases l with
  | nil => exact absurd rfl h
  | cons x xs =>
    rcases foldl_max_mem xs x with h' | h'
    · rw [maxPos, h']; exact List.mem_cons_self x xs
    · exact List.mem_cons_of_mem x h'

theorem le_maxPos (l : List Int) : ∀ z ∈ l, z ≤ maxPos l := by
  cases l with
  | nil => simp
  | cons x xs =>
    intro z hz
    rcases List.mem_cons.mp hz with h | h
    · subst h; exact foldl_max_le_self xs z
    · exact mem_le_foldl_max xs x z h

theorem maxPos_snoc (l : List Int) (a : Int) (ha : -1 ≤ a) :
    maxPos (l ++ [a]) = max (maxPos l) a := by
  cases l with
  | nil => simp [maxPos, max_eq_right ha]
  | cons x xs => simp [maxPos, List.foldl_append]

theorem maxPos_range (k : Nat) :
    maxPos ((List.range k).map (fun j => Int.ofNat j)) = Int.ofNat k - 1 := by
  simp only [Int.ofNat_eq_coe]
  induction k with
  | zero => rfl
  | succ n ih =>
    rw [List.range_succ, List.map_append]
    simp only [List.map_cons, List.map_nil]
    rw [maxPos_snoc _ _ (le_trans (by norm_num) (Nat.cast_nonneg n)), ih]
    rw [max_eq_right (sub_le_self _ zero_le_one)]
    push_cast
    ring

theorem nextPos_eq_sib (db : List Task) (proj : Option Uid) (p : Uid) :
    nextPos db proj (some p) =
      maxPos ((db.filter (fun t => t.parent_id = some p)).map (fun t => t.position)) + 1 := rfl

theorem nextPos_eq_root (db : List Task) (proj : Option Uid) :
    nextPos db proj none =
      maxPos ((db.filter (fun t => sqlEq t.project_id proj ∧ t.parent_id = none)).map
        (fun t => t.position)) + 1 := rfl

theorem sqlEq_none_right (a : Option Uid) : ¬ sqlEq a none := by
  cases a <;> intro h <;> exact h

theorem rootSiblings_none_eq_nil (db : List Task) :
    db.filter (fun t => sqlEq t.project_id none ∧ t.parent_id = none) = [] := by
  refine List.filter_eq_nil_iff.mpr ?_
  intro t ht
  simp only [decide_eq_true_eq]
  exact fun hc => sqlEq_none_right _ hc.1

/-! ## C3 -/

theorem createN_invariant (now : Nat) (p : Uid) : ∀ (N : Nat) (db : List Task) (idBase k : Nat),
    (db.filter (fun t => t.parent_id = some p)).map (fun t => t.position) =
      (List.range k).map (fun j => Int.ofNat j) →
    ((createN db p idBase now N).filter (fun t => t.parent_id = some p)).map
        (fun t => t.position) =
      (List.range (k + N)).map (fun j => Int.ofNat j) := by
  intro N
  induction N with
  | zero => intro db idBase k h; simpa using h
  | succ n ih =>
    intro db idBase k h
    rw [createN]
    unfold createTask
    rw [if_neg (by decide)]
    have hpos : nextPos db none (some p) = Int.ofNat k := by
      rw [nextPos_eq_sib, h, maxPos_range]
      simp only [Int.ofNat_eq_coe]
      ring
    rw [ih _ (idBase + 1) (k + 1) ?_]
    · have he : k + 1 + n = k + (n + 1) := by omega
      rw [he]
    · rw [List.filter_append, List.map_append, h]
      rw [List.range_succ, List.map_append]
      simp [hpos]

/-- C5: add-blocker(A, A) always fails with InvalidArgument; adding the same
    (blocked, blocker) pair a second time fails with Conflict while the
    first call succeeds; removing a pair that does not exist fails with
    NotFound. -/
theorem claimC5_blocker_errors (st : Store) (A B : Uid) (note : Option String)
    (id1 id2 : Uid) (now1 now2 : Nat)
    (hAB : A ≠ B)
    (hA : st.tasks.any (fun t => t.id = A) = true)
    (hB : st.tasks.any (fun t => t.id = B) = true)
    (habsent : st.blockers.any (fun r => r.task_id = A ∧ r.blocker_id = B) = false) :
    (∀ (st2 : Store) (A2 : Uid) (nt : Option String) (i : Uid) (n : Nat),
      addBlocker st2 A2 (some A2) nt i n = .error .invalidArgument) ∧
    (∃ st1 r, addBlocker st A (some B) note id1 now1 = .ok (st1, r) ∧
      addBlocker st1 A (some B) note id2 now2 = .error .conflict) ∧
    removeBlocker st A B = .error .notFound := by
  refine ⟨?_, ?_, ?_⟩
  · intro st2 A2 nt i n
    simp [addBlocker]
  · refine ⟨{ st with blockers := st.blockers ++
        [{ id := id1, task_id := A, blocker_id := B, note := note, created_at := now1 }] },
      { id := id1, task_id := A, blocker_id := B, note := note, created_at := now1 },
      ?_, ?_⟩
    · unfold addBlocker
      dsimp only
      rw [if_neg hAB, if_neg (by rw [habsent]; simp), if_neg (by rw [hA, hB]; simp)]
    · unfold addBlocker
      dsimp only
      rw [if_neg hAB, if_pos (by simp)]
  · unfold removeBlocker
    rw [if_neg (by rw [habsent]; simp)]

theorem claimC5_witness :
    (addBlocker sampleStore 1 (some 1) none 50 5 = .error .invalidArgument) ∧
    (∃ st1 r, addBlocker sampleStore 1 (some 2) none 50 5 = .ok (st1, r) ∧
      addBlocker st1 1 (some 2) none 51 6 = .error .conflict) ∧
    removeBlocker sampleStore 1 2 = .error .notFound := by
  have h := claimC5_blocker_errors sampleStore 1 2 none 50 51 5 6
    (by decide) (by decide) (by decide) (by decide)
  exact ⟨h.1 sampleStore 1 none 50 5, h.2.1, h.2.2⟩

/-! ## C10 -/

/-- C10: in update-task a field supplied explicitly as null behaves exactly
    like an unset field (the stored value is kept, so no call can null or
    clear label, position or the expansion flag), and a successful update
    changes only the supplied non-null fields among label, position and the
    expansion flag plus updated_at; every other column of the row, and every
    other row, is unchanged. -/
theorem claimC10_update_patch (db : List Task) (i : Uid) (lp lp2 : Patch String)
    (pp pp2 : Patch Int) (ep ep2 : Patch Bool) (now : Nat)
    (hex : db.any (fun t => t.id = i) = true)
    (hl : lp.toParam = lp2.toParam) (hp : pp.toParam = pp2.toParam)
    (he : ep.toParam = ep2.toParam) :
    (updateTaskReq db i lp pp ep now = updateTaskReq db i lp2 pp2 ep2 now) ∧
    (updateTaskReq db i Patch.null Patch.null Patch.null now =
      updateTaskReq db i Patch.absent Patch.absent Patch.absent now) ∧
    (∃ db', updateTaskReq db i lp pp ep now = .ok db' ∧
      db'.length = db.length ∧
      ∀ j : Fin db.length, ∃ hj : j.val < db'.length,
        ((db.get j).id ≠ i → db'.get ⟨j.val, hj⟩ = db.get j) ∧
        ((db.get j).id = i →
          (db'.get ⟨j.val, hj⟩).id = (db.get j).id ∧
          (db'.get ⟨j.val, hj⟩).project_id = (db.get j).project_id ∧
          (db'.get ⟨j.val, hj⟩).parent_id = (db.get j).parent_id ∧
          (db'.get ⟨j.val, hj⟩).created_at = (db.get j).created_at ∧
          (db'.get ⟨j.val, hj⟩).updated_at = now ∧
          (db'.get ⟨j.val, hj⟩).label = lp.toParam.getD (db.get j).label ∧
          (db'.get ⟨j.val, hj⟩).position = pp.toParam.getD (db.get j).position ∧
          (db'.get ⟨j.val, hj⟩).is_expanded = ep.toParam.getD (db.get j).is_expanded)) := by
  refine ⟨?_, rfl, ?_⟩
  · unfold updateTaskReq
    rw [hl, hp, he]
  · unfold updateTaskReq updateTask
    rw [if_pos hex]
    refine ⟨_, rfl, by simp, ?_⟩
    intro j
    have hj : j.val < (db.map (fun t =>
        if t.id = i then
          { t with label := lp.toParam.getD t.label, position := pp.toParam.getD t.position
                   is_expanded := ep.toParam.getD t.is_expanded, updated_at := now }
        else t)).length := by simp
    refine ⟨hj, ?_, ?_⟩
    · intro hne
      simp only [List.get_eq_getElem] at hne ⊢
      simp [List.getElem_map, hne]
    · intro heq
      simp only [List.get_eq_getElem] at heq ⊢
      simp [List.getElem_map, heq]

theorem claimC10_witness :
    (updateTaskReq (sampleStore.tasks) 1 (Patch.val ("new")) Patch.null Patch.absent 9 =
      updateTaskReq (sampleStore.tasks) 1 (Patch.val ("new")) Patch.absent Patch.null 9) ∧
    (∃ db', updateTaskReq (sampleStore.tasks) 1 (Patch.val ("new")) Patch.null Patch.absent 9 =
      .ok db' ∧ db'.length = sampleStore.tasks.length) := by
  have h := claimC10_update_patch (sampleStore.tasks) 1 (Patch.val ("new")) (Patch.val ("new"))
    Patch.null Patch.absent Patch.absent Patch.null 9 (by decide) rfl rfl rfl
  rcases h.2.2 with ⟨db', hok, hlen, _⟩
  exact ⟨h.1, ⟨db', hok, hlen⟩⟩

/-! ## C7 -/

/-- C7: the breakdown credential is the explicit per-request credential when
    supplied, otherwise the environment fallback keyed by provider; with
    neither present every provider except openai fails with InvalidArgument,
    while openai proceeds without a credential and its request omits the
    Authorization header. -/
theorem claimC7_credentials :
    (∀ (k : String) (env : Provider → Option String) (p : Provider),
      resolveApiKey (some k) env p = some k) ∧
    (∀ (env : Provider → Option String) (p : Provider),
      resolveApiKey none env p = getEnvKey env p) ∧
    (∀ (api_key : Option String) (env : Provider → Option String) (p : Provider),
      resolveApiKey api_key env p = none → p ≠ Provider.openai →
        breakdownKeyCheck api_key env p = .error .invalidArgument) ∧
    (∀ (api_key : Option String) (env : Provider → Option String),
      resolveApiKey api_key env Provider.openai = none →
        breakdownKeyCheck api_key env Provider.openai = .ok none) ∧
    (∀ h ∈ openAIHeaders none, h.1 ≠ ("Authorization")) ∧
    (∀ k : String, ((("Authorization"), ("Bearer ") ++ k)) ∈ openAIHeaders (some k)) := by
  refine ⟨fun k env p => rfl, fun env p => rfl, ?_, ?_, ?_, ?_⟩
  · intro api_key env p h1 h2
    unfold breakdownKeyCheck
    rw [h1, if_pos h2]
  · intro api_key env h1
    unfold breakdownKeyCheck
    rw [h1, if_neg (by simp)]
  · decide
  · intro k
    simp [openAIHeaders]

theorem claimC7_witness :
    resolveApiKey (some ("req-key")) envNone Provider.gemini = some ("req-key") ∧
    resolveApiKey none envNone Provider.anthropic = getEnvKey envNone Provider.anthropic ∧
    breakdownKeyCheck none envNone Provider.anthropic = .error .invalidArgument ∧
    breakdownKeyCheck none envNone Provider.openai = .ok none ∧
    ((("Content-Type"), ("application/json")).1 ≠ ("Authorization")) ∧
    ((("Authorization"), ("Bearer ") ++ ("k"))) ∈ openAIHeaders (some ("k")) := by
  have h := claimC7_credentials
  exact ⟨h.1 _ envNone _, h.2.1 envNone _,
    h.2.2.1 none envNone _ rfl (by decide),
    h.2.2.2.1 none envNone rfl,
    h.2.2.2.2.1 _ (by decide),
    h.2.2.2.2.2 ("k")⟩

/-! ## C9 -/

theorem isRelevantModelOpenai_eq (m : List Char) :
    isRelevantModelOpenai m =
      (openaiAllowed.any (fun q => headMatches q m) &&
        !(openaiBlocked.any (fun b => containsSub b m)) && !(hasDate m)) := by
  unfold isRelevantModelOpenai
  cases openaiAllowed.any (fun q => headMatches q m) <;>
    cases openaiBlocked.any (fun b => containsSub b m) <;>
      cases hasDate m <;> rfl

/-- C9 counterexample: `gpt-5-audio` matches the allowed prefix `gpt-5` yet
    is rejected (it contains the blocked substring `audio`), so the filter
    does not admit every identifier matching an allowed prefix. -/
theorem claimC9_counterexample :
    headMatches (("gpt-5").toList) (("gpt-5-audio").toList) = true ∧
    (("gpt-5").toList) ∈ openaiAllowed ∧
    isRelevantModelOpenai (("gpt-5-audio").toList) = false := by decide

/-- C9 (amended): the openai model filter rejects every identifier containing
    an embedded YYYY-MM-DD date, rejects every identifier containing a
    blocked substring, rejects every identifier matching no allowed prefix,
    and admits exactly the identifiers that match an allowed prefix and
    contain neither a blocked substring nor an embedded date. -/
theorem claimC9_model_filter (m : List Char) :
    (hasDate m = true → isRelevantModelOpenai m = false) ∧
    ((∃ b ∈ openaiBlocked, containsSub b m = true) → isRelevantModelOpenai m = false) ∧
    ((¬ ∃ q ∈ openaiAllowed, headMatches q m = true) → isRelevantModelOpenai m = false) ∧
    (isRelevantModelOpenai m = true ↔
      ((∃ q ∈ openaiAllowed, headMatches q m = true) ∧
        (∀ b ∈ openaiBlocked, containsSub b m = false) ∧ hasDate m = false)) := by
  rw [isRelevantModelOpenai_eq]
  refine ⟨?_, ?_, ?_, ?_⟩
  · intro h; simp [h]
  · rintro ⟨b, hb, hc⟩
    have : openaiBlocked.any (fun b => containsSub b m) = true :=
      List.any_eq_true.mpr ⟨b, hb, hc⟩
    simp [this]
  · intro h
    have : openaiAllowed.any (fun q => headMatches q m) = false := by
      rw [List.any_eq_false]
      intro q hq
      exact fun hc => h ⟨q, hq, hc⟩
    simp [this]
  · constructor
    · intro h
      have h1 := (Bool.and_eq_true _ _).mp h
      have h2 := (Bool.and_eq_true _ _).mp h1.1
      refine ⟨List.any_eq_true.mp h2.1, ?_, ?_⟩
      · intro b hb
        exact Bool.eq_false_iff.mpr (List.any_eq_false.mp (Bool.not_eq_true' .. ▸ h2.2) b hb)
      · exact Bool.not_eq_true' .. ▸ h1.2
    · rintro ⟨⟨q, hq, hm⟩, hb, hd⟩
      have h1 : openaiAllowed.any (fun q => headMatches q m) = true :=
        List.any_eq_true.mpr ⟨q, hq, hm⟩
      have h2 : openaiBlocked.any (fun b => containsSub b m) = false :=
        List.any_eq_false.mpr (fun b hbm => Bool.eq_false_iff.mp (hb b hbm))
      simp [h1, h2, hd]

theorem claimC9_witness :
    isRelevantModelOpenai (("gpt-5-2025-01-01").toList) = false ∧
    isRelevantModelOpenai (("gpt-4.1-realtime").toList) = false ∧
    isRelevantModelOpenai (("o3-mini").toList) = false ∧
    isRelevantModelOpenai (("gpt-4.1-mini").toList) = true := by
  refine ⟨(claimC9_model_filter _).1 (by decide),
    (claimC9_model_filter _).2.1 ⟨(("realtime").toList), by decide, by decide⟩,
    (claimC9_model_filter _).2.2.1 (by decide),
    (claimC9_model_filter _).2.2.2.mpr (by decide)⟩

/-! ## C1 -/

theorem mapLookup_pushChild (q c p : Uid) : ∀ (m : List (Uid × List Uid)),
    mapLookup p (pushChild m q c) =
      (mapLookup p m).map (fun l => if p = q then l ++ [c] else l) := by
  intro m
  induction m with
  | nil => rfl
  | cons e rest ih =>
    rcases e with ⟨k, v⟩
    have hcons : pushChild (⟨k, v⟩ :: rest) q c =
        (if k = q then (k, v ++ [c]) else (k, v)) :: pushChild rest q c := by
      simp [pushChild]
    rw [hcons]
    by_cases h1 : k = q
    · subst h1
      rw [if_pos rfl]
      by_cases h2 : k = p
      · subst h2
        simp [mapLookup, ih]
      · simp [mapLookup, h2, ih]
    · rw [if_neg h1]
      by_cases h2 : k = p
      · subst h2
        simp [mapLookup, ih, h1, Ne.symm h1]
      · simp [mapLookup, h2, ih]

theorem roots_foldl (ids : List Uid) : ∀ (l : List TreeRow) (m : List (Uid × List Uid))
    (rts : List Uid),
    (l.foldl (buildStep ids) (m, rts)).2 =
      rts ++ (l.filter (fun r => r.task.parent_id = none)).map (fun r => r.task.id) := by
  intro l
  induction l with
  | nil => intro m rts; simp
  | cons r rest ih =>
    intro m rts
    rw [List.foldl_cons]
    cases hpar : r.task.parent_id with
    | none =>
      rw [show buildStep ids (m, rts) r = (m, rts ++ [r.task.id]) from by
        simp [buildStep, hpar]]
      rw [ih]
      simp [List.filter_cons, hpar]
    | some q =>
      by_cases hq : q ∈ ids
      · rw [show buildStep ids (m, rts) r = (pushChild m q r.task.id, rts) from by
          simp [buildStep, hpar, hq]]
        rw [ih]
        simp [List.filter_cons, hpar]
      · rw [show buildStep ids (m, rts) r = (m, rts) from by simp [buildStep, hpar, hq]]
        rw [ih]
        simp [List.filter_cons, hpar]

theorem children_foldl (ids : List Uid) (p : Uid) : ∀ (l : List TreeRow)
    (m : List (Uid × List Uid)) (rts : List Uid),
    mapLookup p (l.foldl (buildStep ids) (m, rts)).1 =
      (mapLookup p m).map (fun init =>
        init ++ (l.filter (fun r => r.task.parent_id = some p ∧ p ∈ ids)).map
          (fun r => r.task.id)) := by
  intro l
  induction l with
  | nil =>
    intro m rts
    simp
  | cons r rest ih =>
    intro m rts
    rw [List.foldl_cons]
    cases hpar : r.task.parent_id with
    | none =>
      rw [show buildStep ids (m, rts) r = (m, rts ++ [r.task.id]) from by
        simp [buildStep, hpar]]
      rw [ih]
      congr 1
      funext init
      simp [List.filter_cons, hpar]
    | some q =>
      by_cases hq : q ∈ ids
      · rw [show buildStep ids (m, rts) r = (pushChild m q r.task.id, rts) from by
          simp [buildStep, hpar, hq]]
        rw [ih, mapLookup_pushChild, Option.map_map]
        by_cases hpq : p = q
        · subst hpq
          congr 1
          funext init
          simp [List.filter_cons, hpar, hq, Function.comp]
        · congr 1
          funext init
          simp [List.filter_cons, hpar, Function.comp, hpq, Ne.symm hpq]
      · rw [show buildStep ids (m, rts) r = (m, rts) from by simp [buildStep, hpar, hq]]
        rw [ih]
        congr 1
        funext init
        by_cases hpq : p = q
        · subst hpq
          simp [List.filter_cons, hpar, hq]
        · simp [List.filter_cons, hpar, Ne.symm hpq]

theorem mapLookup_initMap_of_mem : ∀ (rows : List TreeRow) (p : Uid), p ∈ rowIds rows →
    mapLookup p (initMap rows) = some [] := by
  intro rows
  induction rows with
  | nil => intro p h; simp [rowIds] at h
  | cons r rest ih =>
    intro p h
    have hcons : initMap (r :: rest) = (r.task.id, ([] : List Uid)) :: initMap rest := by
      simp [initMap]
    rw [hcons]
    by_cases he : r.task.id = p
    · simp [mapLookup, he]
    · have hne : ¬ p = r.task.id := fun hh => he hh.symm
      have h' : p = r.task.id ∨ ∃ a ∈ rest, a.task.id = p := by simpa [rowIds] using h
      have hmem : p ∈ rowIds rest := by
        rcases h' with h' | h'
        · exact absurd h' hne
        · simp only [rowIds, List.mem_map]
          exact h'
      simp [mapLookup, he, ih _ hmem]

/-- C1: the get-task-tree fold over a flat result set of the recursive query
    (rows ordered by depth, position, creation time) produces exactly: the
    null-parent rows, in order, as the top-level list; for every present id
    `p`, the rows whose parent is `p`, in source order, as the children of
    `p`; every row with a present non-null parent lands in that parent's
    children; and each children list is ordered by position with creation
    time as tie-break, with no secondary sort. -/
theorem claimC1_tree_fold (rows : List TreeRow)
    (hsort : rows.Pairwise rowKeyLe)
    (hdepth : ∀ r ∈ rows, ∀ s ∈ rows, r.task.parent_id = s.task.parent_id →
      r.depth = s.depth) :
    ((buildTree rows).2 = (rows.filter (fun r => r.task.parent_id = none)).map
      (fun r => r.task.id)) ∧
    (∀ p ∈ rowIds rows, mapLookup p (buildTree rows).1 =
      some ((rows.filter (fun r => r.task.parent_id = some p)).map (fun r => r.task.id))) ∧
    (∀ r ∈ rows, ∀ p, r.task.parent_id = some p → p ∈ rowIds rows →
      ∃ l, mapLookup p (buildTree rows).1 = some l ∧ r.task.id ∈ l) ∧
    (∀ p : Uid, (rows.filter (fun r => r.task.parent_id = some p)).Pairwise sibLe) := by
  have hchild : ∀ p ∈ rowIds rows, mapLookup p (buildTree rows).1 =
      some ((rows.filter (fun r => r.task.parent_id = some p)).map (fun r => r.task.id)) := by
    intro p hp
    unfold buildTree
    rw [children_foldl, mapLookup_initMap_of_mem rows p hp]
    rw [Option.map_some', List.nil_append]
    congr 1
    congr 1
    apply List.filter_congr
    intro r hr
    simp [hp]
  refine ⟨?_, hchild, ?_, ?_⟩
  · unfold buildTree
    rw [roots_foldl, List.nil_append]
  · intro r hr p hpar hp
    refine ⟨_, hchild p hp, ?_⟩
    exact List.mem_map_of_mem _ (List.mem_filter.mpr ⟨hr, by simp [hpar]⟩)
  · intro p
    have hpw : (rows.filter (fun r => r.task.parent_id = some p)).Pairwise rowKeyLe :=
      hsort.sublist (List.filter_sublist rows)
    refine List.Pairwise.imp_of_mem ?_ hpw
    intro a b ha hb hab
    have ha' := List.mem_filter.mp ha
    have hb' := List.mem_filter.mp hb
    have hpa : a.task.parent_id = some p := by simpa using ha'.2
    have hpb : b.task.parent_id = some p := by simpa using hb'.2
    have hd : a.depth = b.depth := hdepth a ha'.1 b hb'.1 (by rw [hpa, hpb])
    rcases hab with hlt | ⟨_, hrest⟩
    · omega
    · exact hrest

theorem claimC1_witness :
    (buildTree sampleRows).2 = [1, 2] ∧
    mapLookup 1 (buildTree sampleRows).1 = some [3] ∧
    (sampleRows.filter (fun r => r.task.parent_id = some 1)).Pairwise sibLe := by
  have h := claimC1_tree_fold sampleRows (by decide) (by decide)
  exact ⟨h.1.trans (by decide), (h.2.1 1 (by decide)).trans (by decide), h.2.2.2 1⟩

/-! ## C2 -/

theorem rooted_mem (db : List Task) (P : Uid) : ∀ t, Rooted db P t → t ∈ db := by
  intro t h
  induction h with
  | root t ht _ _ => exact ht
  | child t u ht _ _ _ => exact ht

theorem mem_ctLevel_rooted (db : List Task) (P : Uid) :
    ∀ n t, t ∈ ctLevel db P n → Rooted db P t := by
  intro n
  induction n with
  | zero =>
    intro t ht
    rw [ctLevel] at ht
    have h := List.mem_filter.mp ht
    have h2 := of_decide_eq_true h.2
    exact Rooted.root t h.1 h2.1 h2.2
  | succ n ih =>
    intro t ht
    rw [ctLevel] at ht
    have h := List.mem_filter.mp ht
    obtain ⟨u, hu, he⟩ := List.any_eq_true.mp h.2
    exact Rooted.child t u h.1 (ih u hu) (of_decide_eq_true he)

theorem rooted_mem_ctLevel (db : List Task) (P : Uid) :
    ∀ t, Rooted db P t → ∃ n, t ∈ ctLevel db P n := by
  intro t h
  induction h with
  | root t ht hp hr =>
    refine ⟨0, ?_⟩
    rw [ctLevel]
    exact List.mem_filter.mpr ⟨ht, by simp [hp, hr]⟩
  | child t u ht hu hp ih =>
    rcases ih with ⟨n, hn⟩
    refine ⟨n + 1, ?_⟩
    rw [ctLevel]
    exact List.mem_filter.mpr ⟨ht, List.any_eq_true.mpr ⟨u, hn, by simp [hp]⟩⟩

theorem rooted_unique (db : List Task) (P : Uid)
    (hnd : (db.map (fun t => t.id)).Nodup) :
    ∀ t, Rooted db P t → ∀ Q, Rooted db Q t → Q = P := by
  intro t h1
  induction h1 with
  | root t ht hp hr =>
    intro Q h2
    cases h2 with
    | root t2 ht2 hp2 hr2 =>
      rw [hp] at hp2
      exact (Option.some.injEq _ _).mp hp2.symm
    | child t2 u2 ht2 hu2 hp2 =>
      rw [hr] at hp2
      cases hp2
  | child t u ht hu hp ih =>
    intro Q h2
    cases h2 with
    | root t2 ht2 hp2 hr2 =>
      rw [hp] at hr2
      cases hr2
    | child t2 u2 ht2 hu2 hp2 =>
      have hid : u2.id = u.id := by
        rw [hp] at hp2
        exact ((Option.some.injEq _ _).mp hp2).symm
      have hu2u : u2 = u :=
        List.inj_on_of_nodup_map hnd (rooted_mem db Q u2 hu2) (rooted_mem db P u hu) hid
      rw [hu2u] at hu2
      exact ih Q hu2

theorem ctLevel_empty (db : List Task) (P : Uid)
    (h : ∀ t ∈ db, t.project_id ≠ some P) : ∀ n, ctLevel db P n = [] := by
  intro n
  induction n with
  | zero =>
    rw [ctLevel]
    refine List.filter_eq_nil_iff.mpr ?_
    intro t ht
    simp only [decide_eq_true_eq, not_and]
    exact fun hp => absurd hp (h t ht)
  | succ n ih =>
    rw [ctLevel, ih]
    refine List.filter_eq_nil_iff.mpr ?_
    intro t ht
    simp

/-- C2: the recursive task query for project P returns exactly the tasks
    transitively rooted at P's root tasks (null parent, project P); with
    distinct ids a returned task cannot also be rooted in a different
    project, so no task of another project appears; and for a project with
    no tasks the result set is empty rather than an error. -/
theorem claimC2_project_scope (db : List Task) (P : Uid)
    (hnd : (db.map (fun t => t.id)).Nodup) :
    (∀ t, InTaskTree db P t ↔ Rooted db P t) ∧
    (∀ t Q, InTaskTree db P t → Rooted db Q t → Q = P) ∧
    ((∀ t ∈ db, t.project_id ≠ some P) → taskTreeRows db P = []) := by
  refine ⟨?_, ?_, ?_⟩
  · intro t
    constructor
    · rintro ⟨n, hn⟩
      exact mem_ctLevel_rooted db P n t hn
    · intro h
      exact rooted_mem_ctLevel db P t h
  · rintro t Q ⟨n, hn⟩ hr
    exact rooted_unique db P hnd t (mem_ctLevel_rooted db P n t hn) Q hr
  · intro h
    unfold taskTreeRows
    exact List.flatMap_eq_nil_iff.mpr (fun n _ => ctLevel_empty db P h n)

theorem claimC2_witness :
    (InTaskTree sampleTreeDb 7 (sampleTask 3 none (some 1) 0 2) ↔
      Rooted sampleTreeDb 7 (sampleTask 3 none (some 1) 0 2)) ∧
    taskTreeRows sampleTreeDb 99 = [] := by
  exact ⟨(claimC2_project_scope sampleTreeDb 7 (by decide)).1 _,
    (claimC2_project_scope sampleTreeDb 99 (by decide)).2.2 (by decide)⟩

/-! ## C4 -/

theorem filter_length_mono {α : Type} (p q : α → Bool)
    (himp : ∀ a, q a = true → p a = true) :
    ∀ l : List α, (l.filter q).length ≤ (l.filter p).length := by
  intro l
  induction l with
  | nil => simp
  | cons x xs ih =>
    cases hq : q x with
    | true =>
      have hp := himp x hq
      simp only [List.filter_cons, hq, hp, if_true]
      simpa using ih
    | false =>
      cases hp : p x <;> simp only [List.filter_cons, hq, hp] <;> simp <;> omega

theorem filter_length_lt {α : Type} (p q : α → Bool)
    (himp : ∀ a, q a = true → p a = true)
    (a : α) (hpa : p a = true) (hqa : q a = false) :
    ∀ l : List α, a ∈ l → (l.filter q).length < (l.filter p).length := by
  intro l
  induction l with
  | nil => intro h; cases h
  | cons x xs ih =>
    intro hmem
    rcases List.mem_cons.mp hmem with he | hm
    · subst he
      simp only [List.filter_cons, hpa, hqa, if_true, if_false]
      have := filter_length_mono p q himp xs
      simp
      omega
    · have hlt := ih hm
      cases hqx : q x with
      | true =>
        have hpx := himp x hqx
        simp only [List.filter_cons, hqx, hpx, if_true]
        simpa using hlt
      | false =>
        cases hpx : p x <;> simp only [List.filter_cons, hqx, hpx] <;> simp <;> omega

theorem deadIter_stable (tasks : List Task) : ∀ (n : Nat) (dead : List Uid),
    newlyDead tasks dead = [] → deadIter tasks n dead = dead := by
  intro n
  induction n with
  | zero => intro dead _; rfl
  | succ k ih =>
    intro dead h
    rw [deadIter, h, List.append_nil]
    exact ih dead h

theorem mem_deadIter (tasks : List Task) : ∀ (n : Nat) (dead : List Uid) (j : Uid),
    j ∈ dead → j ∈ deadIter tasks n dead := by
  intro n
  induction n with
  | zero => intro dead j h; exact h
  | succ k ih =>
    intro dead j h
    rw [deadIter]
    exact ih _ j (List.mem_append_left _ h)

theorem deadIter_sound (tasks : List Task) (i : Uid) : ∀ (n : Nat) (dead : List Uid),
    (∀ j ∈ dead, InSubtree tasks i j) → ∀ j ∈ deadIter tasks n dead, InSubtree tasks i j := by
  intro n
  induction n with
  | zero => intro dead h j hj; exact h j hj
  | succ k ih =>
    intro dead h j hj
    rw [deadIter] at hj
    refine ih _ ?_ j hj
    intro x hx
    rcases List.mem_append.mp hx with hx | hx
    · exact h x hx
    · unfold newlyDead at hx
      rcases List.mem_map.mp hx with ⟨t, ht, rfl⟩
      have hf := List.mem_filter.mp ht
      have hpd : parentDead dead t = true := ((Bool.and_eq_true _ _).mp hf.2).2
      cases hpar : t.parent_id with
      | none => simp [parentDead, hpar] at hpd
      | some p =>
        have hpmem : p ∈ dead := by simpa [parentDead, hpar] using hpd
        exact InSubtree.step t hf.1 p hpar (h p hpmem)

theorem deadIter_fix (tasks : List Task) : ∀ (fuel : Nat) (dead : List Uid),
    ((tasks.map (fun t => t.id)).dedup.filter (fun j => !decide (j ∈ dead))).length ≤ fuel →
    newlyDead tasks (deadIter tasks fuel dead) = [] := by
  intro fuel
  induction fuel with
  | zero =>
    intro dead h
    have hz : ((tasks.map (fun t => t.id)).dedup.filter (fun j => !decide (j ∈ dead))) = [] :=
      List.length_eq_zero.mp (Nat.le_zero.mp h)
    rw [deadIter]
    unfold newlyDead
    refine List.map_eq_nil_iff.mpr (List.filter_eq_nil_iff.mpr ?_)
    intro t ht
    have hmem : t.id ∈ dead := by
      by_contra hc
      have h1 : t.id ∈ (tasks.map (fun t => t.id)).dedup :=
        List.mem_dedup.mpr (List.mem_map_of_mem _ ht)
      have h2 : t.id ∈ (tasks.map (fun t => t.id)).dedup.filter
          (fun j => !decide (j ∈ dead)) :=
        List.mem_filter.mpr ⟨h1, by simp [hc]⟩
      rw [hz] at h2
      cases h2
    simp [hmem]
  | succ k ih =>
    intro dead h
    rw [deadIter]
    cases hnew : newlyDead tasks dead with
    | nil =>
      rw [List.append_nil, deadIter_stable tasks k dead hnew]
      exact hnew
    | cons j rest =>
      apply ih
      have hjnew : j ∈ newlyDead tasks dead := by
        rw [hnew]
        exact List.mem_cons_self _ _
      have hjmeta := List.mem_map.mp (by rw [newlyDead] at hjnew; exact hjnew)
      rcases hjmeta with ⟨t, ht, he⟩
      have hf := List.mem_filter.mp ht
      have hjdead : ¬ j ∈ dead := by
        have := ((Bool.and_eq_true _ _).mp hf.2).1
        rw [← he]
        simpa using this
      have hlt : ((tasks.map (fun t => t.id)).dedup.filter
          (fun x => !decide (x ∈ dead ++ newlyDead tasks dead))).length <
          ((tasks.map (fun t => t.id)).dedup.filter (fun x => !decide (x ∈ dead))).length := by
        refine filter_length_lt _ _ ?_ j ?_ ?_ _ ?_
        · intro a ha
          simp only [Bool.not_eq_true', decide_eq_false_iff_not, List.mem_append] at ha ⊢
          exact fun hmem => ha (Or.inl hmem)
        · simpa using hjdead
        · have hjm : j ∈ dead ++ newlyDead tasks dead := List.mem_append_right _ hjnew
          simp [hjm]
        · rw [← he]
          exact List.mem_dedup.mpr (List.mem_map_of_mem _ hf.1)
      rw [hnew] at hlt
      omega

theorem deadClosure_fix (tasks : List Task) (i : Uid) :
    newlyDead tasks (deadClosure tasks i) = [] := by
  unfold deadClosure
  exact deadIter_fix tasks _ [i] (List.length_filter_le _ _)

theorem deadClosure_closed (tasks : List Task) (i : Uid) :
    ∀ t ∈ tasks, ∀ p, t.parent_id = some p → p ∈ deadClosure tasks i →
      t.id ∈ deadClosure tasks i := by
  intro t ht p hp hpd
  by_contra hc
  have hmem : t.id ∈ newlyDead tasks (deadClosure tasks i) := by
    unfold newlyDead
    refine List.mem_map_of_mem _ (List.mem_filter.mpr ⟨ht, ?_⟩)
    simp [hc, parentDead, hp, hpd]
  rw [deadClosure_fix] at hmem
  cases hmem

theorem inSubtree_mem_deadClosure (tasks : List Task) (i : Uid) :
    ∀ j, InSubtree tasks i j → j ∈ deadClosure tasks i := by
  intro j h
  induction h with
  | base =>
    unfold deadClosure
    exact mem_deadIter tasks _ [i] i (List.mem_cons_self _ _)
  | step t ht p hp hin ih => exact deadClosure_closed tasks i t ht p hp ih

theorem deadClosure_sound (tasks : List Task) (i : Uid) :
    ∀ j ∈ deadClosure tasks i, InSubtree tasks i j := by
  unfold deadClosure
  refine deadIter_sound tasks i _ [i] ?_
  intro j hj
  rcases List.mem_cons.mp hj with he | he
  · rw [he]
    exact InSubtree.base
  · cases he

/-- C4: delete-task on an existing task removes exactly the task, its
    transitive descendants and every blocker row whose blocked or blocker
    endpoint is among them; every other task and blocker row survives
    unchanged and in order; the call fails with NotFound exactly when the id
    matches no task, and never fails because the task has children. -/
theorem claimC4_delete_cascade (st : Store) (i : Uid) :
    ((¬ ∃ t ∈ st.tasks, t.id = i) → deleteTask st i = .error .notFound) ∧
    ((∃ t ∈ st.tasks, t.id = i) → ∃ st2, deleteTask st i = .ok st2 ∧
      (∀ t, t ∈ st2.tasks ↔ t ∈ st.tasks ∧ ¬ InSubtree st.tasks i t.id) ∧
      (∀ b, b ∈ st2.blockers ↔ b ∈ st.blockers ∧
        ¬ InSubtree st.tasks i b.task_id ∧ ¬ InSubtree st.tasks i b.blocker_id) ∧
      st2.tasks.Sublist st.tasks ∧ st2.blockers.Sublist st.blockers) := by
  constructor
  · intro h
    unfold deleteTask
    rw [if_neg (fun hc => h (by simpa using List.any_eq_true.mp hc))]
  · intro h
    unfold deleteTask
    rw [if_pos (List.any_eq_true.mpr (by rcases h with ⟨t, ht, he⟩; exact ⟨t, ht, by simp [he]⟩))]
    refine ⟨_, rfl, ?_, ?_, List.filter_sublist _, List.filter_sublist _⟩
    · intro t
      rw [List.mem_filter]
      constructor
      · rintro ⟨htm, hpred⟩
        refine ⟨htm, ?_⟩
        intro hsub
        have hd := inSubtree_mem_deadClosure st.tasks i t.id hsub
        simp [hd] at hpred
      · rintro ⟨htm, hnsub⟩
        refine ⟨htm, ?_⟩
        have hd : ¬ t.id ∈ deadClosure st.tasks i :=
          fun hc => hnsub (deadClosure_sound st.tasks i t.id hc)
        simp [hd]
    · intro b
      rw [List.mem_filter]
      constructor
      · rintro ⟨hbm, hpred⟩
        rw [Bool.and_eq_true] at hpred
        refine ⟨hbm, ?_, ?_⟩
        · intro hsub
          have hd := inSubtree_mem_deadClosure st.tasks i b.task_id hsub
          simp [hd] at hpred
        · intro hsub
          have hd := inSubtree_mem_deadClosure st.tasks i b.blocker_id hsub
          simp [hd] at hpred
      · rintro ⟨hbm, hns1, hns2⟩
        refine ⟨hbm, ?_⟩
        have hd1 : ¬ b.task_id ∈ deadClosure st.tasks i :=
          fun hc => hns1 (deadClosure_sound st.tasks i b.task_id hc)
        have hd2 : ¬ b.blocker_id ∈ deadClosure st.tasks i :=
          fun hc => hns2 (deadClosure_sound st.tasks i b.blocker_id hc)
        simp [hd1, hd2]

theorem claimC4_witness :
    deleteTask sampleCascadeStore 99 = .error .notFound ∧
    (∃ st2, deleteTask sampleCascadeStore 2 = .ok st2 ∧
      (∀ t, t ∈ st2.tasks ↔ t ∈ sampleCascadeStore.tasks ∧
        ¬ InSubtree sampleCascadeStore.tasks 2 t.id) ∧
      (∀ b, b ∈ st2.blockers ↔ b ∈ sampleCascadeStore.blockers ∧
        ¬ InSubtree sampleCascadeStore.tasks 2 b.task_id ∧
        ¬ InSubtree sampleCascadeStore.tasks 2 b.blocker_id) ∧
      st2.tasks.Sublist sampleCascadeStore.tasks ∧
      st2.blockers.Sublist sampleCascadeStore.blockers) :=
  ⟨(claimC4_delete_cascade sampleCascadeStore 99).1 (by decide),
   (claimC4_delete_cascade sampleCascadeStore 2).2 (by decide)⟩

/-! ## C6 -/

theorem takeToLastRBrack_none : ∀ s : List Char, takeToLastRBrack s = none ↔ ']' ∉ s := by
  intro s
  induction s with
  | nil => simp [takeToLastRBrack]
  | cons c rest ih =>
    rw [takeToLastRBrack]
    cases h : takeToLastRBrack rest with
    | some tl =>
      simp only []
      constructor
      · intro hc; cases hc
      · intro hc
        have : ']' ∉ rest := fun hm => hc (List.mem_cons_of_mem _ hm)
        rw [← ih] at this
        rw [h] at this
        cases this
    | none =>
      have hrest : ']' ∉ rest := ih.mp h
      by_cases hc : c = ']'
      · subst hc
        simp
      · simp [hc, hrest, Ne.symm hc]

theorem takeToLastRBrack_spec : ∀ (s tl : List Char), takeToLastRBrack s = some tl →
    ∃ suf, s = tl ++ suf ∧ tl.getLast? = some (']') ∧ ']' ∉ suf := by
  intro s
  induction s with
  | nil => intro tl h; cases h
  | cons c rest ih =>
    intro tl h
    rw [takeToLastRBrack] at h
    cases h2 : takeToLastRBrack rest with
    | some tl2 =>
      rw [h2] at h
      have h' : some (c :: tl2) = some tl := h
      have he : c :: tl2 = tl := by injection h'
      subst he
      rcases ih tl2 h2 with ⟨suf, hs, hl, hns⟩
      refine ⟨suf, by rw [hs]; rfl, ?_, hns⟩
      have htl2 : tl2 ≠ [] := by
        intro hnil
        rw [hnil] at hl
        cases hl
      rw [show (c :: tl2 : List Char) = [c] ++ tl2 from rfl]
      rw [List.getLast?_append_of_ne_nil _ htl2]
      exact hl
    | none =>
      rw [h2] at h
      by_cases hc : c = ']'
      · subst hc
        have h' : (some [']'] : Option (List Char)) = some tl := by
          rw [← h]
          simp
        have he : ([']'] : List Char) = tl := by injection h'
        subst he
        exact ⟨rest, rfl, rfl, (takeToLastRBrack_none rest).mp h2⟩
      · have h' : (none : Option (List Char)) = some tl := by
          rw [← h]
          simp [hc]
        cases h'

theorem extractArraySpan_spec : ∀ (s sp : List Char), extractArraySpan s = some sp →
    ∃ pre suf, s = pre ++ sp ++ suf ∧ '[' ∉ pre ∧ (∃ inner, sp = '[' :: inner) ∧
      sp.getLast? = some (']') ∧ ']' ∉ suf := by
  intro s
  induction s with
  | nil => intro sp h; cases h
  | cons c rest ih =>
    intro sp h
    rw [extractArraySpan] at h
    by_cases hc : c = '['
    · subst hc
      rw [if_pos rfl] at h
      cases h2 : takeToLastRBrack rest with
      | some tl =>
        rw [h2] at h
        have h' : some ('[' :: tl) = some sp := h
        have he : '[' :: tl = sp := by injection h'
        subst he
        rcases takeToLastRBrack_spec rest tl h2 with ⟨suf, hs, hl, hns⟩
        refine ⟨[], suf, by rw [hs]; rfl, by simp, ⟨tl, rfl⟩, ?_, hns⟩
        have htl : tl ≠ [] := by
          intro hnil
          rw [hnil] at hl
          cases hl
        rw [show ('[' :: tl : List Char) = ['['] ++ tl from rfl]
        rw [List.getLast?_append_of_ne_nil _ htl]
        exact hl
      | none =>
        rw [h2] at h
        have h' : (none : Option (List Char)) = some sp := h
        cases h'
    · rw [if_neg hc] at h
      rcases ih sp h with ⟨pre, suf, hs, hpre, hbr, hl, hns⟩
      refine ⟨c :: pre, suf, by simp [hs], ?_, hbr, hl, hns⟩
      intro hm
      rcases List.mem_cons.mp hm with hm | hm
      · exact hc hm.symm
      · exact hpre hm

/-- C6 counterexample: on the body `x [,] y` a bracketed span is located but
    `[,]` is not valid JSON; the parse throws and is caught by the generic
    handler, so the operation fails with InternalError (500), not with the
    BadUpstreamResponse (502) path the claim asserts. -/
theorem claimC6_counterexample :
    extractArraySpan (("x [,] y").toList) = some (("[,]").toList) ∧
    parseBreakdown ("x [,] y") = .error .internal ∧
    Err.internal ≠ Err.badUpstream :=
  ⟨rfl, rfl, by decide⟩

/-- C6 (amended): the breakdown parser locates the bracketed span running
    from the first opening bracket to the last closing bracket, tolerating
    surrounding prose or code fences, and parses it as JSON; on the body
    `Sure! ```json\n["a","b","c"]\n``` ` it extracts exactly the list
    ["a","b","c"]; with no bracketed span it fails with BadUpstreamResponse;
    when the located span does not parse as valid JSON it fails with
    InternalError through the generic handler, not BadUpstreamResponse. -/
theorem claimC6_breakdown_parse :
    (parseBreakdown ("Sure! ```json\n[\"a\",\"b\",\"c\"]\n```") =
      .ok (.arr [.str (("a").toList), .str (("b").toList), .str (("c").toList)])) ∧
    (∀ (s sp : List Char), extractArraySpan s = some sp →
      ∃ pre suf, s = pre ++ sp ++ suf ∧ '[' ∉ pre ∧ (∃ inner, sp = '[' :: inner) ∧
        sp.getLast? = some (']') ∧ ']' ∉ suf) ∧
    (∀ text : String, extractArraySpan text.toList = none →
      parseBreakdown text = .error .badUpstream) ∧
    (∀ (text : String) (span : List Char), extractArraySpan text.toList = some span →
      parseJson span = none → parseBreakdown text = .error .internal) := by
  refine ⟨rfl, extractArraySpan_spec, ?_, ?_⟩
  · intro text h
    simp only [parseBreakdown, h]
  · intro text span h1 h2
    simp only [parseBreakdown, h1, h2]

theorem claimC6_witness :
    (∃ pre suf, ("x [1] y").toList = pre ++ ("[1]").toList ++ suf ∧ '[' ∉ pre ∧
      (∃ inner, ("[1]").toList = '[' :: inner) ∧
      (("[1]").toList).getLast? = some (']') ∧ ']' ∉ suf) ∧
    parseBreakdown ("no json here") = .error .badUpstream ∧
    parseBreakdown ("x [,] y") = .error .internal := by
  have h := claimC6_breakdown_parse
  exact ⟨h.2.1 (("x [1] y").toList) (("[1]").toList) rfl,
    h.2.2.1 ("no json here") rfl,
    h.2.2.2 ("x [,] y") (("[,]").toList) rfl rfl⟩

/-! ## C8 -/

theorem importPass_mono : ∀ (l : List Task) (ins : List Uid) (db : List Task) (x : Uid),
    x ∈ ins → x ∈ (importPass ins db l).1 := by
  intro l
  induction l with
  | nil => intro ins db x h; exact h
  | cons t rest ih =>
    intro ins db x h
    rw [importPass]
    by_cases hr : insertReady ins t = true
    · rw [if_pos hr]
      exact ih _ _ x (List.mem_append_left _ h)
    · rw [if_neg hr]
      exact ih _ _ x h

theorem insertReady_mono (t : Task) : ∀ (ins ins2 : List Uid), (∀ x ∈ ins, x ∈ ins2) →
    insertReady ins t = true → insertReady ins2 t = true := by
  intro ins ins2 hsub h
  cases hpar : t.parent_id with
  | none => simp [insertReady, hpar]
  | some p =>
    simp only [insertReady, hpar, decide_eq_true_eq] at h ⊢
    exact hsub p h

theorem importPass_inserts : ∀ (l : List Task) (ins : List Uid) (db : List Task) (t : Task),
    t ∈ l → insertReady ins t = true → t.id ∈ (importPass ins db l).1 := by
  intro l
  induction l with
  | nil => intro ins db t h; cases h
  | cons u rest ih =>
    intro ins db t hmem hready
    rcases List.mem_cons.mp hmem with he | hm
    · subst he
      rw [importPass, if_pos hready]
      exact importPass_mono rest _ _ t.id (List.mem_append_right _ (by simp))
    · by_cases hu : insertReady ins u = true
      · rw [importPass, if_pos hu]
        exact ih _ _ t hm (insertReady_mono t _ _ (fun x hx => List.mem_append_left _ hx) hready)
      · rw [importPass, if_neg hu]
        exact ih _ _ t hm hready

theorem importPass_stuck : ∀ (l : List Task) (ins : List Uid) (db : List Task),
    (∀ t ∈ l, insertReady ins t = false) → importPass ins db l = (ins, db, l) := by
  intro l
  induction l with
  | nil => intro ins db _; rfl
  | cons t rest ih =>
    intro ins db h
    have ht : insertReady ins t = false := h t (List.mem_cons_self _ _)
    rw [importPass, if_neg (by simp [ht])]
    rw [ih ins db (fun u hu => h u (List.mem_cons_of_mem _ hu))]

theorem importLoop_zero : ∀ (ins : List Uid) (db : List Task) (l : List Task), l ≠ [] →
    importLoop 0 ins db l = .error importErrMsg := by
  intro ins db l hne
  cases l with
  | nil => exact absurd rfl hne
  | cons t rest => rfl

theorem importLoop_stuck : ∀ (fuel : Nat) (ins : List Uid) (db : List Task) (l : List Task),
    l ≠ [] → (∀ t ∈ l, insertReady ins t = false) →
    importLoop fuel ins db l = .error importErrMsg := by
  intro fuel
  induction fuel with
  | zero =>
    intro ins db l hne _
    exact importLoop_zero ins db l hne
  | succ k ih =>
    intro ins db l hne h
    cases l with
    | nil => exact absurd rfl hne
    | cons t rest =>
      rw [importLoop]
      rw [importPass_stuck _ _ _ h]
      exact ih ins db (t :: rest) hne h

theorem importEndpoint_rollback : ∀ (st : Store) (rows : List Task) (brows : List Blocker)
    (e : String), importTasks rows = .error e →
    importEndpoint st rows brows = (st, some ("Import failed")) := by
  intro st rows brows e h
  unfold importEndpoint
  rw [h]

/-- C8: an import pass inserts every remaining row whose parent is already
    inserted or null; when rows remain once the fixed pass budget is spent
    the stage fails with an error instead of looping — in particular a
    remaining set none of whose rows is insertable (cyclic or orphaned
    parent references) fails for every budget — and a task-stage failure
    rolls the transaction back, leaving the prior store intact. -/
theorem claimC8_import_multipass :
    (∀ (l : List Task) (ins : List Uid) (db : List Task) (t : Task),
      t ∈ l → insertReady ins t = true → t.id ∈ (importPass ins db l).1) ∧
    (∀ (ins : List Uid) (db : List Task) (l : List Task), l ≠ [] →
      importLoop 0 ins db l = .error importErrMsg) ∧
    (∀ (fuel : Nat) (ins : List Uid) (db : List Task) (l : List Task), l ≠ [] →
      (∀ t ∈ l, insertReady ins t = false) →
      importLoop fuel ins db l = .error importErrMsg) ∧
    (∀ (st : Store) (rows : List Task) (brows : List Blocker) (e : String),
      importTasks rows = .error e →
      importEndpoint st rows brows = (st, some ("Import failed"))) :=
  ⟨importPass_inserts, importLoop_zero, importLoop_stuck, importEndpoint_rollback⟩

theorem claimC8_witness :
    (21 : Uid) ∈ (importPass [] [] [sampleTask 21 none none 0 0]).1 ∧
    importLoop 0 [] [] sampleCycleRows = .error importErrMsg ∧
    importLoop 20 [] [] sampleCycleRows = .error importErrMsg ∧
    importEndpoint sampleStore sampleCycleRows [] = (sampleStore, some ("Import failed")) := by
  have h := claimC8_import_multipass
  exact ⟨h.1 [sampleTask 21 none none 0 0] [] [] (sampleTask 21 none none 0 0)
      (by decide) (by decide),
    h.2.1 [] [] sampleCycleRows (by decide),
    h.2.2.1 20 [] [] sampleCycleRows (by decide) (by decide),
    h.2.2.2 sampleStore sampleCycleRows [] importErrMsg rfl⟩

end Tasker
